import Mathlib

/-!
Shallow embedding of `aleph/search/__init__.py`: the query-construction class
hierarchy (documents, entity-mention, alert, entities, similar-entities,
suggest, combined, collections, records) and the result-assembly classes
(`MatchQueryResult`, `RecordsQueryResult`), together with theorems about the
spec's testable properties.

Elasticsearch bool queries are embedded as a structure of clause lists; each
clause kind appearing in the source is one constructor of `EsClause`.  Python
dict mutation (the in-place `names.extend(fingerprints)`) is made explicit by
returning the updated entity alongside the built query.
-/

set_option autoImplicit false

namespace AlephSearch

/-- One schema of the external `followthemoney` registry (`model`), as consumed
by `SuggestEntitiesQuery.get_query`: a name and the `fuzzy` flag. -/
structure Schema where
  name : String
  fuzzy : Bool
  deriving DecidableEq, Repr

/-- A reference entity as consumed by `EntityDocumentsQuery` /
`SimilarEntitiesQuery`: a Python dict with an optional `names` key (`none`
models an absent key, so that the in-place `extend` aliasing is observable)
and a `fingerprints` list (`entity.get('fingerprints', [])`). -/
structure Entity where
  names : Option (List String)
  fingerprints : List String
  deriving DecidableEq, Repr

/-- The clause kinds occurring in the queries built by this module.  Constant
numeric parameters from the source are carried as fields (the source's float
boost `3.0` is the integral value 3). -/
inductive EsClause where
  /-- The opaque authorization scope clause (spec §6), identified by the
  requester's scope. -/
  | authzFilter (scopeId : Nat)
  /-- A structured per-field filter from the parsed request (spec §4.1). -/
  | fieldTerms (field : String) (values : List String)
  /-- `{'term': {'document_id': ...}}` from `RecordsQuery.get_query`. -/
  | termDocId (docId : Nat)
  /-- `{'range': {'created_at': {'gt': ...}}}` from `AlertDocumentsQuery.get_query`. -/
  | rangeCreatedAtGt (since : String)
  /-- `{'match': {'fingerprints': {'query': fp, 'fuzziness': 1, 'operator': 'and', 'boost': 3.0}}}`. -/
  | fuzzyFingerprint (q : String) (fuzziness : Nat) (boost : Nat)
  /-- `{'match_phrase': {field: {'query': name, 'slop': 3}}}`. -/
  | phraseMatch (field : String) (q : String) (slop : Nat)
  /-- `{'constant_score': {'filter': {'terms': {'index': rows}}, 'boost': 1000}}`. -/
  | constantScoreRows (indices : List Int) (boost : Nat)
  /-- `{'match_phrase_prefix': {'names': parser.prefix}}`. -/
  | phrasePrefixNames (q : String)
  /-- `{'terms': {'schema': [...]}}` from `SuggestEntitiesQuery.get_query`. -/
  | schemaTerms (names : List String)
  /-- The weighted multi-field free-text `must` match of the base builder. -/
  | multiTextMatch (fields : List String) (q : String)
  /-- The similarity clause wired in by `aleph.index.xref.entity_query`. -/
  | similarityClause (entity : Option Entity)
  deriving DecidableEq, Repr

/-- The `bool` query body: `filter`, `must`, `should`, `must_not` arrays and
the optional `minimum_should_match` threshold (spec §3, §6). -/
structure BoolQuery where
  filter : List EsClause
  must : List EsClause
  should : List EsClause
  must_not : List EsClause
  minimum_should_match : Option Nat
  deriving DecidableEq, Repr

/-- The parsed request (`aleph.search.parser.QueryParser` /
`SearchQueryParser`, not under src/): the fields this module reads — free
text, prefix text, `getintlist('row')`, the authorization scope, and the
structured per-field filters. -/
structure QueryParser where
  text : String
  prefixText : String
  rowList : List Int
  authz : Nat
  filters : List (String × List String)
  deriving DecidableEq, Repr

/-- Modelled from the spec: the base `Query` class's `TEXT_FIELDS` is in
`aleph/search/query.py`, not under src/, and the spec does not name the base
field list; a single catch-all field stands in.  No claim inspects it. -/
def Query.TEXT_FIELDS : List String := ["_all"]

/-- Modelled from the spec: `aleph.search.query.Query.get_query` is not under
src/.  Per §4.1/§3, structured per-field filters become `filter` clauses,
non-empty free text becomes a weighted multi-field `must` match, `should` and
`must_not` start empty, and no minimum-should-match is set.  The plain base
class does not add the authorization scope: that is the role of the separate
authorization-scoping base `AuthzQuery` (§2 lists "QueryBuilder +
authorization-scoping base" as distinct parts), which src/ imports as a
distinct class; scoped kinds subclass `AuthzQuery` while `RecordsQuery`
subclasses plain `Query`. -/
def Query.get_query (textFields : List String) (p : QueryParser) : BoolQuery :=
  { filter := p.filters.map (fun f => EsClause.fieldTerms f.1 f.2)
    must := if p.text = "" then [] else [EsClause.multiTextMatch textFields p.text]
    should := []
    must_not := []
    minimum_should_match := none }

/-- Modelled from the spec: `aleph.search.query.AuthzQuery` is not under src/.
Per §4.1/§6 it applies the requester's authorization scope as a
non-negotiable clause in the final `filter` array, on top of the base
builder. -/
def AuthzQuery.get_query (textFields : List String) (p : QueryParser) : BoolQuery :=
  let q := Query.get_query textFields p
  { q with filter := q.filter ++ [EsClause.authzFilter p.authz] }

/-- `DocumentsQuery.TEXT_FIELDS` from the source. -/
def DocumentsQuery.TEXT_FIELDS : List String := ["title^3", "summary", "text", "_all"]

/-- `DocumentsQuery`: an `AuthzQuery` over documents with its own text
fields. -/
def DocumentsQuery.get_query (p : QueryParser) : BoolQuery :=
  AuthzQuery.get_query DocumentsQuery.TEXT_FIELDS p

/-- `EntityDocumentsQuery.get_query`.  With no reference entity the base
documents query is returned unchanged.  Otherwise, per fingerprint a fuzzy
should-clause on `fingerprints` is appended, then `names.extend(fingerprints)`
runs — which mutates the entity's own `names` list in place whenever the
entity carries a `names` key — then per name (now names ++ fingerprints) a
phrase should-clause per field in title/summary/text is appended, and
`minimum_should_match` is set to 1.  The function returns the built query
together with the possibly-mutated entity. -/
def EntityDocumentsQuery.get_query (p : QueryParser) (entity : Option Entity) :
    BoolQuery × Option Entity :=
  let query := DocumentsQuery.get_query p
  match entity with
  | none => (query, none)
  | some e =>
    let fingerprints := e.fingerprints
    let query := { query with
      should := query.should ++
        fingerprints.map (fun fp => EsClause.fuzzyFingerprint fp 1 3) }
    let names := e.names.getD [] ++ fingerprints
    let e2 : Entity := { e with names := e.names.map (fun ns => ns ++ fingerprints) }
    let query := { query with
      should := query.should ++ names.flatMap (fun name =>
        ["title", "summary", "text"].map (fun field => EsClause.phraseMatch field name 3)) }
    ({ query with minimum_should_match := some 1 }, some e2)

/-- Per-field highlight options: field name paired with the optional
`number_of_fragments` setting (`none` = empty options dict). -/
structure HighlightSpec where
  fields : List (String × Option Nat)
  deriving DecidableEq, Repr

/-- `AlertDocumentsQuery.get_highlight`: fields `text` and `summary`, each
with an empty options dict (no `number_of_fragments` entry). -/
def AlertDocumentsQuery.get_highlight : HighlightSpec :=
  { fields := [("text", none), ("summary", none)] }

/-- `AlertDocumentsQuery.get_query`.  The source calls
`super(EntityDocumentsQuery, self).get_query()`, which resolves past
`EntityDocumentsQuery` to `DocumentsQuery.get_query`, so the entity
should-clauses are skipped and the stored entity is never used here; when
`since` is not None a strict `gt` range filter on `created_at` is appended. -/
def AlertDocumentsQuery.get_query (p : QueryParser) (_entity : Option Entity)
    (since : Option String) : BoolQuery :=
  let query := DocumentsQuery.get_query p
  match since with
  | none => query
  | some t => { query with filter := query.filter ++ [EsClause.rangeCreatedAtGt t] }

/-- `EntitiesQuery`: an `AuthzQuery` over entities; it declares no
`TEXT_FIELDS` of its own, so the base class's list applies. -/
def EntitiesQuery.get_query (p : QueryParser) : BoolQuery :=
  AuthzQuery.get_query Query.TEXT_FIELDS p

/-- Modelled from the spec: `aleph.index.xref.entity_query` is not under src/.
Per §4.2, similarity search "augments the base entity query with a similarity
clause" computed by an external collaborator, this subsystem only wiring the
reference entity in; modelled as appending one opaque similarity clause and
leaving the rest of the query untouched. -/
def entity_query (entity : Option Entity) (query : BoolQuery) : BoolQuery :=
  { query with should := query.should ++ [EsClause.similarityClause entity] }

/-- `SimilarEntitiesQuery.get_query`: the base entities query passed through
`entity_query` with the reference entity. -/
def SimilarEntitiesQuery.get_query (p : QueryParser) (entity : Option Entity) : BoolQuery :=
  entity_query entity (EntitiesQuery.get_query p)

/-- `SuggestEntitiesQuery.get_query`: replaces `must` wholesale with a
phrase-prefix match on `names` and appends to `must_not` a terms clause
excluding every schema of the (external) registry that is not
fuzzy-matchable (`[s.name for s in model if not s.fuzzy]`).  The registry is
passed as an argument. -/
def SuggestEntitiesQuery.get_query (registry : List Schema) (p : QueryParser) : BoolQuery :=
  let query := EntitiesQuery.get_query p
  let query := { query with must := [EsClause.phrasePrefixNames p.prefixText] }
  { query with must_not := query.must_not ++
      [EsClause.schemaTerms ((registry.filter (fun s => !s.fuzzy)).map Schema.name)] }

/-- `CombinedQuery`: an `AuthzQuery` over entities and documents; no
`TEXT_FIELDS` of its own, so the base list applies. -/
def CombinedQuery.get_query (p : QueryParser) : BoolQuery :=
  AuthzQuery.get_query Query.TEXT_FIELDS p

/-- `CollectionsQuery.TEXT_FIELDS` from the source. -/
def CollectionsQuery.TEXT_FIELDS : List String := ["label^3", "_all"]

/-- `CollectionsQuery`: an `AuthzQuery` over collections with label-weighted
text fields. -/
def CollectionsQuery.get_query (p : QueryParser) : BoolQuery :=
  AuthzQuery.get_query CollectionsQuery.TEXT_FIELDS p

/-- The owning document of a records query (`self.document.id`). -/
structure Document where
  id : Nat
  deriving DecidableEq, Repr

/-- `RecordsQuery.TEXT_FIELDS` from the source. -/
def RecordsQuery.TEXT_FIELDS : List String := ["text"]

/-- `RecordsQuery.get_highlight`: the `text` field limited to one fragment. -/
def RecordsQuery.get_highlight : HighlightSpec :=
  { fields := [("text", some 1)] }

/-- `RecordsQuery.get_query`.  The base class is plain `Query`, not
`AuthzQuery`.  A term filter on the owning document's id is always appended;
when the requested row-index list is non-empty, a constant-score should-boost
(boost 1000) over exactly those indices is appended. -/
def RecordsQuery.get_query (p : QueryParser) (document : Document) : BoolQuery :=
  let query := Query.get_query RecordsQuery.TEXT_FIELDS p
  let query := { query with filter := query.filter ++ [EsClause.termDocId document.id] }
  let rows := p.rowList
  if rows.length ≠ 0 then
    { query with should := query.should ++ [EsClause.constantScoreRows rows 1000] }
  else query

/-! ## Result assembly -/

/-- An entity document as fetched back from the index (`unpack_result`):
identified by its `id`. -/
structure IndexEntity where
  id : String
  deriving DecidableEq, Repr

/-- A cross-reference match row: the two reference ids, plus the `match` /
`entity` attributes that resolution may set (`none` models the attribute not
being set; Python tests it with `hasattr`). -/
structure MatchRow where
  match_id : String
  entity_id : String
  matchDoc : Option IndexEntity
  entityDoc : Option IndexEntity
  deriving DecidableEq, Repr

/-- The body of `MatchQueryResult.__init__`'s inner assignment loop: one
fetched entity is assigned to a row wherever it equals either reference id
(two independent `if`s in the source; neither assignment writes the ids, so
both tests read the row's unchanged reference ids). -/
def assignDoc (e : IndexEntity) (r : MatchRow) : MatchRow :=
  { r with
    matchDoc := if r.match_id = e.id then some e else r.matchDoc
    entityDoc := if r.entity_id = e.id then some e else r.entityDoc }

/-- Resolution of a single row against the fetched docs, in fetch order: the
row-level view of the doc-major assignment loops of
`MatchQueryResult.__init__` (`None` docs are skipped, as `unpack_result`
returns None for entities missing at fetch time). -/
def applyRow (docs : List (Option IndexEntity)) (r : MatchRow) : MatchRow :=
  docs.foldl (fun r d =>
    match d with
    | none => r
    | some e => assignDoc e r) r

/-- The assembled similarity-match page: reported total and surviving rows. -/
structure MatchPage where
  total : Nat
  results : List MatchRow
  deriving DecidableEq, Repr

/-- A match row as handed over by the base `DatabaseQueryResult` assembler,
modelled from the spec (§4.3: pure wrapping): it carries just its two
reference ids, with neither attribute set yet. -/
def mkMatchRow (pr : String × String) : MatchRow :=
  { match_id := pr.1, entity_id := pr.2, matchDoc := none, entityDoc := none }

/-- The single `mget` batch fetch of `MatchQueryResult.__init__`: the set of
reference ids over all rows, each looked up in the entity store (a missing id
yields `None`, as `unpack_result` does for entities deleted in the mean
time). -/
def fetchDocs (store : List IndexEntity) (rows : List MatchRow) :
    List (Option IndexEntity) :=
  ((rows.flatMap (fun r => [r.match_id, r.entity_id])).dedup).map
    (fun i => store.find? (fun e => e.id == i))

/-- `MatchQueryResult.__init__`.  The ids of all rows are collected into a
set and fetched in one `mget` (`fetchDocs`); each fetched entity is assigned
to every row matching either reference (`assignDoc`, doc-major loop); finally
every row still missing a `match` or an `entity` attribute is removed —
without adjusting `total`. -/
def MatchQueryResult.init (total : Nat) (rows : List (String × String))
    (store : List IndexEntity) : MatchPage :=
  let results := rows.map mkMatchRow
  let docs := fetchDocs store results
  let results := docs.foldl (fun rs d =>
    match d with
    | none => rs
    | some e => rs.map (assignDoc e)) results
  { total := total
    results := results.filter (fun r => r.matchDoc.isSome && r.entityDoc.isSome) }

/-- A stored document row (`aleph.model.DocumentRecord`): id, structured
payload, extracted text. -/
structure DocumentRecord where
  id : Nat
  data : String
  text : String
  deriving DecidableEq, Repr

/-- Modelled from the spec: `DocumentRecord.find_records` is not under src/;
per §6 the row store's batch fetch takes an identifier list and returns the
stored rows for the identifiers present, absent entries simply omitted. -/
def find_records (store : List DocumentRecord) (ids : List Nat) : List DocumentRecord :=
  store.filter (fun rec => ids.contains rec.id)

/-- A result row of a records query: the index-derived id plus the `data` and
`text` keys that the join may set (`none` = key absent). -/
structure RecordRow where
  id : Nat
  data : Option String
  text : Option String
  deriving DecidableEq, Repr

/-- `RecordsQueryResult.__init__`.  The base `SearchQueryResult` page is
modelled from the spec (§4.3: pure wrapping, so each incoming hit carries its
id and no payload keys).  All hit ids are looked up in one `find_records`
batch; each returned record's `data` and `text` are written into every hit
with the same id; hits without a record are left untouched, and no hit is
removed. -/
def RecordsQueryResult.init (store : List DocumentRecord) (hitIds : List Nat) :
    List RecordRow :=
  let results := hitIds.map (fun i => ({ id := i, data := none, text := none } : RecordRow))
  let ids := results.map (fun r => r.id)
  (find_records store ids).foldl (fun rs rec =>
    rs.map (fun r =>
      if r.id = rec.id then { r with data := some rec.data, text := some rec.text } else r))
    results

/-! ## Theorems -/

/-- C1, counterexample: as stated the claim is false — the records query built
from a concrete parser (scope 0) for document 1 has no authorization scope
clause in its `filter` array, because `RecordsQuery` subclasses the unscoped
base `Query`. -/
theorem records_query_lacks_authz_scope :
    EsClause.authzFilter 0 ∉
      (RecordsQuery.get_query ⟨"", "", [], 0, []⟩ ⟨1⟩).filter := by decide

/-- C1 (amended): every kind of query except records — documents,
entity-mention, alert, entities, similar-entities, suggest, combined,
collections — carries the authorization scope clause in its final `filter`
array; the records query, built on the unscoped base `Query`, never carries
a scope clause in `filter`. -/
theorem authz_scope_in_all_scoped_kinds (p : QueryParser) (entity e2 : Option Entity)
    (since : Option String) (registry : List Schema) (doc : Document) :
    EsClause.authzFilter p.authz ∈ (DocumentsQuery.get_query p).filter ∧
    EsClause.authzFilter p.authz ∈ (EntityDocumentsQuery.get_query p entity).1.filter ∧
    EsClause.authzFilter p.authz ∈ (AlertDocumentsQuery.get_query p entity since).filter ∧
    EsClause.authzFilter p.authz ∈ (EntitiesQuery.get_query p).filter ∧
    EsClause.authzFilter p.authz ∈ (SimilarEntitiesQuery.get_query p e2).filter ∧
    EsClause.authzFilter p.authz ∈ (SuggestEntitiesQuery.get_query registry p).filter ∧
    EsClause.authzFilter p.authz ∈ (CombinedQuery.get_query p).filter ∧
    EsClause.authzFilter p.authz ∈ (CollectionsQuery.get_query p).filter ∧
    ∀ s, EsClause.authzFilter s ∉ (RecordsQuery.get_query p doc).filter := by
  refine ⟨?_, ?_, ?_, ?_, ?_, ?_, ?_, ?_, ?_⟩
  · simp [DocumentsQuery.get_query, AuthzQuery.get_query]
  · cases entity <;>
      simp [EntityDocumentsQuery.get_query, DocumentsQuery.get_query, AuthzQuery.get_query]
  · cases since <;>
      simp [AlertDocumentsQuery.get_query, DocumentsQuery.get_query, AuthzQuery.get_query]
  · simp [EntitiesQuery.get_query, AuthzQuery.get_query]
  · simp [SimilarEntitiesQuery.get_query, entity_query, EntitiesQuery.get_query,
      AuthzQuery.get_query]
  · simp [SuggestEntitiesQuery.get_query, EntitiesQuery.get_query, AuthzQuery.get_query]
  · simp [CombinedQuery.get_query, AuthzQuery.get_query]
  · simp [CollectionsQuery.get_query, AuthzQuery.get_query]
  · intro s
    by_cases hr : p.rowList.length ≠ 0 <;>
      simp [RecordsQuery.get_query, Query.get_query, hr]

/-- C2: at the failing input (empty parser, reference entity with
fingerprint list `["A"]`, `since = None`), the alert query differs from the
entity-mention query built from the same parser and entity: the alert
builder's `super(EntityDocumentsQuery, self).get_query()` call skips the
entity should-clauses and the minimum-should-match threshold. -/
theorem alert_since_none_skips_entity_clauses :
    AlertDocumentsQuery.get_query ⟨"", "", [], 0, []⟩ (some ⟨some [], ["A"]⟩) none ≠
      (EntityDocumentsQuery.get_query ⟨"", "", [], 0, []⟩ (some ⟨some [], ["A"]⟩)).1 := by
  decide

/-- C4: for an entity-mention query over a reference entity with non-empty
fingerprints, `minimum_should_match` is 1 and the `should` array contains a
fuzzy match clause on the `fingerprints` field for every fingerprint. -/
theorem entity_mention_fuzzy_per_fingerprint (p : QueryParser) (e : Entity)
    (_h : e.fingerprints ≠ []) :
    (EntityDocumentsQuery.get_query p (some e)).1.minimum_should_match = some 1 ∧
    ∀ fp ∈ e.fingerprints,
      EsClause.fuzzyFingerprint fp 1 3 ∈ (EntityDocumentsQuery.get_query p (some e)).1.should := by
  refine ⟨rfl, fun fp hfp => ?_⟩
  simp only [EntityDocumentsQuery.get_query, DocumentsQuery.get_query, AuthzQuery.get_query,
    Query.get_query, List.mem_append, List.mem_map]
  exact Or.inl (Or.inr ⟨fp, hfp, rfl⟩)

/-- Witness for C4 at a concrete parser and entity with fingerprints
`["A", "B"]`. -/
theorem entity_mention_fuzzy_per_fingerprint_witness :
    (Entity.mk (some []) ["A", "B"]).fingerprints ≠ [] ∧
    ((EntityDocumentsQuery.get_query ⟨"", "", [], 0, []⟩
        (some (Entity.mk (some []) ["A", "B"]))).1.minimum_should_match = some 1 ∧
      ∀ fp ∈ (Entity.mk (some []) ["A", "B"]).fingerprints,
        EsClause.fuzzyFingerprint fp 1 3 ∈
          (EntityDocumentsQuery.get_query ⟨"", "", [], 0, []⟩
            (some (Entity.mk (some []) ["A", "B"]))).1.should) :=
  ⟨by decide, entity_mention_fuzzy_per_fingerprint _ _ (by decide)⟩

/-- C5: the suggestion query's `must_not` consists of exactly one schema-terms
exclusion, listing exactly the names of the registry's non-fuzzy schemas:
every non-fuzzy schema's name is excluded, and every excluded name is the
name of some non-fuzzy schema. -/
theorem suggest_excludes_exactly_non_fuzzy (registry : List Schema) (p : QueryParser) :
    (SuggestEntitiesQuery.get_query registry p).must_not =
      [EsClause.schemaTerms ((registry.filter (fun s => !s.fuzzy)).map Schema.name)] ∧
    (∀ s ∈ registry, s.fuzzy = false →
      s.name ∈ (registry.filter (fun s => !s.fuzzy)).map Schema.name) ∧
    (∀ n ∈ (registry.filter (fun s => !s.fuzzy)).map Schema.name,
      ∃ s ∈ registry, s.fuzzy = false ∧ s.name = n) := by
  refine ⟨rfl, fun s hs hf => ?_, fun n hn => ?_⟩
  · exact List.mem_map.mpr ⟨s, List.mem_filter.mpr ⟨hs, by simp [hf]⟩, rfl⟩
  · obtain ⟨s, hsf, rfl⟩ := List.mem_map.mp hn
    obtain ⟨hs, hf⟩ := List.mem_filter.mp hsf
    exact ⟨s, hs, by simpa using hf, rfl⟩

/-- C6: a records query with requested rows `[2, 5]` filters to the owning
document's id, boosts exactly the indices `{2, 5}` through a constant-score
`should` clause, and no constant-score row clause ever appears in `filter`,
so unrequested rows are not excluded. -/
theorem records_query_rows_boost (p : QueryParser) (doc : Document)
    (h : p.rowList = [2, 5]) :
    EsClause.termDocId doc.id ∈ (RecordsQuery.get_query p doc).filter ∧
    EsClause.constantScoreRows [2, 5] 1000 ∈ (RecordsQuery.get_query p doc).should ∧
    ∀ idxs b, EsClause.constantScoreRows idxs b ∉ (RecordsQuery.get_query p doc).filter := by
  unfold RecordsQuery.get_query
  rw [h]
  simp [Query.get_query]

/-- Witness for C6 at a concrete parser requesting rows `[2, 5]` on
document 7. -/
theorem records_query_rows_boost_witness :
    (QueryParser.mk "" "" [2, 5] 0 []).rowList = [2, 5] ∧
    (EsClause.termDocId (7 : Nat) ∈
        (RecordsQuery.get_query ⟨"", "", [2, 5], 0, []⟩ ⟨7⟩).filter ∧
      EsClause.constantScoreRows [2, 5] 1000 ∈
        (RecordsQuery.get_query ⟨"", "", [2, 5], 0, []⟩ ⟨7⟩).should ∧
      ∀ idxs b, EsClause.constantScoreRows idxs b ∉
        (RecordsQuery.get_query ⟨"", "", [2, 5], 0, []⟩ ⟨7⟩).filter) :=
  ⟨rfl, records_query_rows_boost _ _ rfl⟩

/-- C8: an alert query built with `since = some t` carries a strict
greater-than range filter on `created_at` at `t` in its `filter` array. -/
theorem alert_since_strict_gt_filter (p : QueryParser) (entity : Option Entity)
    (t : String) :
    EsClause.rangeCreatedAtGt t ∈ (AlertDocumentsQuery.get_query p entity (some t)).filter := by
  simp [AlertDocumentsQuery.get_query, DocumentsQuery.get_query, AuthzQuery.get_query]

/-- C9, counterexample: the alert highlight spec does not limit highlighting
to a single fragment per field — its per-field options are empty (`none`),
not `number_of_fragments = 1`. -/
theorem alert_highlight_no_fragment_limit :
    ¬ ∀ f ∈ AlertDocumentsQuery.get_highlight.fields, f.2 = some 1 := by decide

/-- C9 (amended): the alert highlight spec covers exactly the body-text and
summary fields, in that order, and sets no per-field fragment limit (the
options dict of each field is empty, leaving the fragment count to the
engine default). -/
theorem alert_highlight_fields_exact :
    AlertDocumentsQuery.get_highlight.fields.map Prod.fst = ["text", "summary"] ∧
    ∀ f ∈ AlertDocumentsQuery.get_highlight.fields, f.2 = none := by decide

/-- C7: joining hits `[r1, r2]` against a row store holding only `r1`'s
record keeps both rows in their original order; `r1` carries the stored
payload and text while `r2` keeps empty payload fields, and no row is
removed. -/
theorem records_join_keeps_missing_rows (r1 r2 : Nat) (rec1 : DocumentRecord)
    (hid : rec1.id = r1) (hne : r2 ≠ r1) :
    RecordsQueryResult.init [rec1] [r1, r2] =
      [{ id := r1, data := some rec1.data, text := some rec1.text },
       { id := r2, data := none, text := none }] := by
  subst hid
  simp [RecordsQueryResult.init, find_records, hne]

/-- Witness for C7 at concrete hits `[1, 2]` and a store holding only the
record of row 1. -/
theorem records_join_keeps_missing_rows_witness :
    (DocumentRecord.mk 1 "d" "t").id = 1 ∧ (2 : Nat) ≠ 1 ∧
    RecordsQueryResult.init [DocumentRecord.mk 1 "d" "t"] [1, 2] =
      [{ id := 1, data := some "d", text := some "t" },
       { id := 2, data := none, text := none }] :=
  ⟨rfl, by decide, records_join_keeps_missing_rows 1 2 (DocumentRecord.mk 1 "d" "t") rfl
    (by decide)⟩

/-! ### Resolution lemmas for the similarity-match assembler -/

@[simp] lemma applyRow_nil (r : MatchRow) : applyRow [] r = r := rfl

@[simp] lemma applyRow_cons_none (ds : List (Option IndexEntity)) (r : MatchRow) :
    applyRow (none :: ds) r = applyRow ds r := rfl

@[simp] lemma applyRow_cons_some (e : IndexEntity) (ds : List (Option IndexEntity))
    (r : MatchRow) : applyRow (some e :: ds) r = applyRow ds (assignDoc e r) := rfl

/-- The doc-major assignment fold of `MatchQueryResult.__init__` acts on each
row independently. -/
lemma foldl_assign_eq_map (docs : List (Option IndexEntity)) (rows : List MatchRow) :
    docs.foldl (fun rs d =>
      match d with
      | none => rs
      | some e => rs.map (assignDoc e)) rows = rows.map (applyRow docs) := by
  induction docs generalizing rows with
  | nil =>
    rw [List.foldl_nil]
    exact (List.map_id'' applyRow_nil rows).symm
  | cons d ds ih =>
    cases d with
    | none => simpa using ih rows
    | some e =>
      rw [List.foldl_cons]
      show ds.foldl _ (rows.map (assignDoc e)) = _
      rw [ih, List.map_map]
      rfl

lemma applyRow_match_id (docs : List (Option IndexEntity)) (r : MatchRow) :
    (applyRow docs r).match_id = r.match_id := by
  induction docs generalizing r with
  | nil => rfl
  | cons d ds ih =>
    cases d with
    | none => rw [applyRow_cons_none]; exact ih r
    | some e => rw [applyRow_cons_some]; exact ih (assignDoc e r)

lemma applyRow_entity_id (docs : List (Option IndexEntity)) (r : MatchRow) :
    (applyRow docs r).entity_id = r.entity_id := by
  induction docs generalizing r with
  | nil => rfl
  | cons d ds ih =>
    cases d with
    | none => rw [applyRow_cons_none]; exact ih r
    | some e => rw [applyRow_cons_some]; exact ih (assignDoc e r)

/-- A row's `match` attribute ends up set exactly when it already was, or some
fetched doc carries its match reference id. -/
lemma applyRow_matchDoc_isSome_iff (docs : List (Option IndexEntity)) (r : MatchRow) :
    (applyRow docs r).matchDoc.isSome ↔
      r.matchDoc.isSome ∨ ∃ e, some e ∈ docs ∧ e.id = r.match_id := by
  induction docs generalizing r with
  | nil => simp
  | cons d ds ih =>
    cases d with
    | none =>
      rw [applyRow_cons_none, ih]
      simp
    | some e0 =>
      rw [applyRow_cons_some, ih]
      by_cases hm : r.match_id = e0.id
      · have h1 : (assignDoc e0 r).matchDoc.isSome := by simp [assignDoc, hm]
        exact iff_of_true (Or.inl h1) (Or.inr ⟨e0, by simp, hm.symm⟩)
      · have hmd : (assignDoc e0 r).matchDoc = r.matchDoc := by simp [assignDoc, hm]
        rw [hmd]
        constructor
        · rintro (h | ⟨e, he, hid⟩)
          · exact Or.inl h
          · exact Or.inr ⟨e, List.mem_cons_of_mem _ he, hid⟩
        · rintro (h | ⟨e, he, hid⟩)
          · exact Or.inl h
          · rcases List.mem_cons.mp he with h0 | h0
            · cases Option.some.inj h0
              exact absurd hid.symm hm
            · exact Or.inr ⟨e, h0, hid⟩

/-- Counterpart of `applyRow_matchDoc_isSome_iff` for the `entity`
attribute. -/
lemma applyRow_entityDoc_isSome_iff (docs : List (Option IndexEntity)) (r : MatchRow) :
    (applyRow docs r).entityDoc.isSome ↔
      r.entityDoc.isSome ∨ ∃ e, some e ∈ docs ∧ e.id = r.entity_id := by
  induction docs generalizing r with
  | nil => simp
  | cons d ds ih =>
    cases d with
    | none =>
      rw [applyRow_cons_none, ih]
      simp
    | some e0 =>
      rw [applyRow_cons_some, ih]
      by_cases hm : r.entity_id = e0.id
      · have h1 : (assignDoc e0 r).entityDoc.isSome := by simp [assignDoc, hm]
        exact iff_of_true (Or.inl h1) (Or.inr ⟨e0, by simp, hm.symm⟩)
      · have hmd : (assignDoc e0 r).entityDoc = r.entityDoc := by simp [assignDoc, hm]
        rw [hmd]
        constructor
        · rintro (h | ⟨e, he, hid⟩)
          · exact Or.inl h
          · exact Or.inr ⟨e, List.mem_cons_of_mem _ he, hid⟩
        · rintro (h | ⟨e, he, hid⟩)
          · exact Or.inl h
          · rcases List.mem_cons.mp he with h0 | h0
            · cases Option.some.inj h0
              exact absurd hid.symm hm
            · exact Or.inr ⟨e, h0, hid⟩

/-- Provenance: a resolved `match` attribute was either there before or comes
from a fetched doc carrying the row's match reference id. -/
lemma applyRow_matchDoc_some (docs : List (Option IndexEntity)) (r : MatchRow)
    (e : IndexEntity) (h : (applyRow docs r).matchDoc = some e) :
    r.matchDoc = some e ∨ (some e ∈ docs ∧ e.id = r.match_id) := by
  induction docs generalizing r with
  | nil => exact Or.inl h
  | cons d ds ih =>
    cases d with
    | none =>
      rw [applyRow_cons_none] at h
      rcases ih r h with h1 | ⟨hmem, hid⟩
      · exact Or.inl h1
      · exact Or.inr ⟨List.mem_cons_of_mem _ hmem, hid⟩
    | some e0 =>
      rw [applyRow_cons_some] at h
      rcases ih (assignDoc e0 r) h with h1 | ⟨hmem, hid⟩
      · by_cases hm : r.match_id = e0.id
        · simp only [assignDoc, if_pos hm] at h1
          cases Option.some.inj h1
          exact Or.inr ⟨List.mem_cons_self _ _, hm.symm⟩
        · simp only [assignDoc, if_neg hm] at h1
          exact Or.inl h1
      · exact Or.inr ⟨List.mem_cons_of_mem _ hmem, hid⟩

/-- Counterpart of `applyRow_matchDoc_some` for the `entity` attribute. -/
lemma applyRow_entityDoc_some (docs : List (Option IndexEntity)) (r : MatchRow)
    (e : IndexEntity) (h : (applyRow docs r).entityDoc = some e) :
    r.entityDoc = some e ∨ (some e ∈ docs ∧ e.id = r.entity_id) := by
  induction docs generalizing r with
  | nil => exact Or.inl h
  | cons d ds ih =>
    cases d with
    | none =>
      rw [applyRow_cons_none] at h
      rcases ih r h with h1 | ⟨hmem, hid⟩
      · exact Or.inl h1
      · exact Or.inr ⟨List.mem_cons_of_mem _ hmem, hid⟩
    | some e0 =>
      rw [applyRow_cons_some] at h
      rcases ih (assignDoc e0 r) h with h1 | ⟨hmem, hid⟩
      · by_cases hm : r.entity_id = e0.id
        · simp only [assignDoc, if_pos hm] at h1
          cases Option.some.inj h1
          exact Or.inr ⟨List.mem_cons_self _ _, hm.symm⟩
        · simp only [assignDoc, if_neg hm] at h1
          exact Or.inl h1
      · exact Or.inr ⟨List.mem_cons_of_mem _ hmem, hid⟩

/-- A doc for id `x` appears among the per-id lookups exactly when the store
holds an entity with id `x` (given that `x` was among the fetched ids). -/
lemma exists_mem_docs_iff (store : List IndexEntity) (ids : List String) (x : String)
    (hx : x ∈ ids) :
    (∃ e, some e ∈ ids.map (fun i => store.find? (fun a => a.id == i)) ∧ e.id = x) ↔
      ∃ e ∈ store, e.id = x := by
  constructor
  · rintro ⟨e, hmem, hex⟩
    obtain ⟨i, _, hfind⟩ := List.mem_map.mp hmem
    exact ⟨e, List.mem_of_find?_eq_some hfind, hex⟩
  · rintro ⟨e, hes, hex⟩
    have hsome : (store.find? (fun a => a.id == x)).isSome :=
      List.find?_isSome.mpr ⟨e, hes, by simp [hex]⟩
    obtain ⟨e2, he2⟩ := Option.isSome_iff_exists.mp hsome
    refine ⟨e2, List.mem_map.mpr ⟨x, hx, he2⟩, ?_⟩
    simpa using List.find?_some he2

/-- C3: after similarity-match assembly, the reported total is the incoming
total (not adjusted for drops); every surviving row has both its match and
entity references resolved to entities fetched from the store under the
matching ids; and the surviving rows are exactly the incoming id pairs whose
two references are both present in the store, in their original order and
with their original identifiers. -/
theorem match_result_resolution (total : Nat) (rows : List (String × String))
    (store : List IndexEntity) :
    (MatchQueryResult.init total rows store).total = total ∧
    (∀ r ∈ (MatchQueryResult.init total rows store).results,
      (∃ e ∈ store, r.matchDoc = some e ∧ e.id = r.match_id) ∧
      (∃ e ∈ store, r.entityDoc = some e ∧ e.id = r.entity_id)) ∧
    (MatchQueryResult.init total rows store).results.map (fun r => (r.match_id, r.entity_id)) =
      rows.filter (fun pr =>
        store.any (fun e => e.id == pr.1) && store.any (fun e => e.id == pr.2)) := by
  simp only [MatchQueryResult.init, foldl_assign_eq_map, List.map_map]
  refine ⟨by trivial, ?_, ?_⟩
  · intro r hr
    obtain ⟨hmem, hP⟩ := List.mem_filter.mp hr
    obtain ⟨pr, _, rfl⟩ := List.mem_map.mp hmem
    rw [Bool.and_eq_true] at hP
    constructor
    · obtain ⟨em, hem⟩ := Option.isSome_iff_exists.mp hP.1
      rcases applyRow_matchDoc_some _ _ _ hem with h1 | ⟨hmemd, hid⟩
      · exact absurd h1 (by simp [mkMatchRow])
      · rw [fetchDocs] at hmemd
        obtain ⟨i, _, hfind⟩ := List.mem_map.mp hmemd
        exact ⟨em, List.mem_of_find?_eq_some hfind, hem,
          by simpa [Function.comp, applyRow_match_id] using hid⟩
    · obtain ⟨em, hem⟩ := Option.isSome_iff_exists.mp hP.2
      rcases applyRow_entityDoc_some _ _ _ hem with h1 | ⟨hmemd, hid⟩
      · exact absurd h1 (by simp [mkMatchRow])
      · rw [fetchDocs] at hmemd
        obtain ⟨i, _, hfind⟩ := List.mem_map.mp hmemd
        exact ⟨em, List.mem_of_find?_eq_some hfind, hem,
          by simpa [Function.comp, applyRow_entity_id] using hid⟩
  · rw [List.filter_map, List.map_map]
    have hfun : ∀ pr : String × String,
        ((fun r : MatchRow => (r.match_id, r.entity_id)) ∘
          (applyRow (fetchDocs store (rows.map mkMatchRow)) ∘ mkMatchRow)) pr = pr := by
      intro pr
      simp [Function.comp, applyRow_match_id, applyRow_entity_id, mkMatchRow]
    rw [List.map_id'' hfun]
    apply List.filter_congr
    intro pr hpr
    have hx1 : pr.1 ∈ ((rows.map mkMatchRow).flatMap
        (fun r => [r.match_id, r.entity_id])).dedup :=
      List.mem_dedup.mpr (List.mem_flatMap.mpr
        ⟨mkMatchRow pr, List.mem_map.mpr ⟨pr, hpr, rfl⟩, by simp [mkMatchRow]⟩)
    have hx2 : pr.2 ∈ ((rows.map mkMatchRow).flatMap
        (fun r => [r.match_id, r.entity_id])).dedup :=
      List.mem_dedup.mpr (List.mem_flatMap.mpr
        ⟨mkMatchRow pr, List.mem_map.mpr ⟨pr, hpr, rfl⟩, by simp [mkMatchRow]⟩)
    have h1 : (applyRow (fetchDocs store (rows.map mkMatchRow)) (mkMatchRow pr)).matchDoc.isSome
        ↔ ∃ e ∈ store, e.id = pr.1 := by
      rw [applyRow_matchDoc_isSome_iff]
      simp only [mkMatchRow, Option.isSome_none, Bool.false_eq_true, false_or, fetchDocs]
      exact exists_mem_docs_iff store _ pr.1 hx1
    have h2 : (applyRow (fetchDocs store (rows.map mkMatchRow)) (mkMatchRow pr)).entityDoc.isSome
        ↔ ∃ e ∈ store, e.id = pr.2 := by
      rw [applyRow_entityDoc_isSome_iff]
      simp only [mkMatchRow, Option.isSome_none, Bool.false_eq_true, false_or, fetchDocs]
      exact exists_mem_docs_iff store _ pr.2 hx2
    simp only [Function.comp_apply]
    rw [Bool.eq_iff_iff, Bool.and_eq_true, Bool.and_eq_true, h1, h2]
    simp [List.any_eq_true]

/-! ### Mutation of the reference entity by the entity-mention builder -/

/-- Each occurrence of `x` in the name list contributes at least one
occurrence of clause `c` to the flat-mapped phrase-clause list, provided the
block built from `x` contains `c`. -/
lemma count_flatMap_ge (l : List String) (f : String → List EsClause) (x : String)
    (c : EsClause) (h : 1 ≤ (f x).count c) :
    l.count x ≤ (l.flatMap f).count c := by
  induction l with
  | nil => simp
  | cons a as ih =>
    rw [List.flatMap_cons, List.count_append, List.count_cons]
    by_cases hax : a = x
    · subst hax
      simp only [beq_self_eq_true, if_true]
      omega
    · have : (a == x) = false := beq_eq_false_iff_ne.mpr hax
      simp only [this, Bool.false_eq_true, if_false]
      omega

/-- C10: building the entity-mention query over an entity that carries a
`names` key and a non-empty fingerprint list mutates the supplied entity —
its names list is extended in place with the fingerprints, so the
caller-visible entity changes — and a second build over the same (returned)
entity emits duplicate phrase should-clauses: every fingerprint's title
phrase clause then occurs at least twice. -/
theorem entity_mention_mutates_entity (p : QueryParser) (e : Entity) (ns : List String)
    (hn : e.names = some ns) (hfp : e.fingerprints ≠ []) :
    (EntityDocumentsQuery.get_query p (some e)).2 =
      some { e with names := some (ns ++ e.fingerprints) } ∧
    (EntityDocumentsQuery.get_query p (some e)).2 ≠ some e ∧
    ∀ fp ∈ e.fingerprints,
      2 ≤ ((EntityDocumentsQuery.get_query p
            (EntityDocumentsQuery.get_query p (some e)).2).1.should.count
        (EsClause.phraseMatch "title" fp 3)) := by
  have h2 : (EntityDocumentsQuery.get_query p (some e)).2 =
      some { e with names := some (ns ++ e.fingerprints) } := by
    simp [EntityDocumentsQuery.get_query, hn]
  refine ⟨h2, ?_, ?_⟩
  · rw [h2]
    intro hcontra
    have hnames := congrArg Entity.names (Option.some.inj hcontra)
    rw [hn] at hnames
    have hlen := congrArg List.length (Option.some.inj hnames)
    rw [List.length_append] at hlen
    exact hfp (List.length_eq_zero.mp (by omega))
  · intro fp hfp2
    rw [h2]
    have hshould : (EntityDocumentsQuery.get_query p
        (some { e with names := some (ns ++ e.fingerprints) })).1.should =
        e.fingerprints.map (fun fp => EsClause.fuzzyFingerprint fp 1 3) ++
          ((ns ++ e.fingerprints) ++ e.fingerprints).flatMap (fun name =>
            ["title", "summary", "text"].map
              (fun field => EsClause.phraseMatch field name 3)) := by
      simp [EntityDocumentsQuery.get_query, DocumentsQuery.get_query, AuthzQuery.get_query,
        Query.get_query]
    rw [hshould, List.count_append]
    have hz : (e.fingerprints.map (fun fp => EsClause.fuzzyFingerprint fp 1 3)).count
        (EsClause.phraseMatch "title" fp 3) = 0 := by
      rw [List.count_eq_zero]
      intro hmem
      obtain ⟨y, -, hy⟩ := List.mem_map.mp hmem
      exact EsClause.noConfusion hy
    have hb : 1 ≤ ((["title", "summary", "text"].map
        (fun field => EsClause.phraseMatch field fp 3)).count
          (EsClause.phraseMatch "title" fp 3)) :=
      List.count_pos_iff.mpr (List.mem_map.mpr ⟨"title", by simp, rfl⟩)
    have hge := count_flatMap_ge ((ns ++ e.fingerprints) ++ e.fingerprints)
      (fun name => ["title", "summary", "text"].map
        (fun field => EsClause.phraseMatch field name 3))
      fp (EsClause.phraseMatch "title" fp 3) hb
    have hcnt : 2 ≤ ((ns ++ e.fingerprints) ++ e.fingerprints).count fp := by
      have h1 : 0 < e.fingerprints.count fp := List.count_pos_iff.mpr hfp2
      rw [List.count_append, List.count_append]
      omega
    omega

/-- Witness for C10 at a concrete parser and the entity with names `["N"]`
and fingerprints `["A"]`. -/
theorem entity_mention_mutates_entity_witness :
    (Entity.mk (some ["N"]) ["A"]).names = some ["N"] ∧
    (Entity.mk (some ["N"]) ["A"]).fingerprints ≠ [] ∧
    ((EntityDocumentsQuery.get_query ⟨"", "", [], 0, []⟩
        (some (Entity.mk (some ["N"]) ["A"]))).2 =
      some { Entity.mk (some ["N"]) ["A"] with
        names := some (["N"] ++ (Entity.mk (some ["N"]) ["A"]).fingerprints) } ∧
    (EntityDocumentsQuery.get_query ⟨"", "", [], 0, []⟩
        (some (Entity.mk (some ["N"]) ["A"]))).2 ≠ some (Entity.mk (some ["N"]) ["A"]) ∧
    ∀ fp ∈ (Entity.mk (some ["N"]) ["A"]).fingerprints,
      2 ≤ ((EntityDocumentsQuery.get_query ⟨"", "", [], 0, []⟩
            (EntityDocumentsQuery.get_query ⟨"", "", [], 0, []⟩
              (some (Entity.mk (some ["N"]) ["A"]))).2).1.should.count
        (EsClause.phraseMatch "title" fp 3))) :=
  ⟨rfl, by decide,
    entity_mention_mutates_entity ⟨"", "", [], 0, []⟩ (Entity.mk (some ["N"]) ["A"]) ["N"]
      rfl (by decide)⟩

end AlephSearch
